import Mathlib

/-!
Verification of the CodeSage frontend against its specification.

Shallow embedding: strings are modelled as `List Char`; JavaScript string
methods (`replace` with the concrete regexes used by the code, `trim`,
`toLowerCase`, `includes`) are hand-compiled to recursive functions with
left-to-right, leftmost-match scanning semantics; JS numbers are modelled
as rationals; nullable values as `Option`; JS falsiness of strings/numbers
is made explicit at each use site.
-/

/-! ## JavaScript character classes

`isJsWS` is the character set matched by the regex class `\s` (and removed
by `String.prototype.trim`): whitespace plus line terminators.
`isLineTerm` is the ECMAScript LineTerminator set, the positions at which
`^` and `$` match in multiline mode. -/

def isJsWS (c : Char) : Bool :=
  c = ' ' || c = '\t' || c = '\n' || c = '\r' ||
  c = Char.ofNat 11 || c = Char.ofNat 12 || c = Char.ofNat 0xa0 ||
  c = Char.ofNat 0x1680 || (0x2000 ≤ c.toNat && c.toNat ≤ 0x200a) ||
  c = Char.ofNat 0x2028 || c = Char.ofNat 0x2029 || c = Char.ofNat 0x202f ||
  c = Char.ofNat 0x205f || c = Char.ofNat 0x3000 || c = Char.ofNat 0xfeff

def isLineTerm (c : Char) : Bool :=
  c = '\n' || c = '\r' || c = Char.ofNat 0x2028 || c = Char.ofNat 0x2029

/-- Length of the maximal prefix of `l` whose characters satisfy `p`. -/
def countLead (p : Char → Bool) : List Char → Nat
  | [] => 0
  | c :: rest => if p c then countLead p rest + 1 else 0

/-- Number of leading hyphens: the greedy extent of `-+` at this position. -/
def hyCount (l : List Char) : Nat := countLead (fun c => c = '-') l

/-- Does `---+\s*$` (non-multiline `$`: end of input) match the whole of `l`?
Backtracking cannot shorten the greedy hyphen run, because the character
after a shortened run would be a hyphen, which is not in `\s`. -/
def isHrTail (l : List Char) : Bool :=
  3 ≤ hyCount l && (l.drop (hyCount l)).all isJsWS

/-! ## MarkdownRenderer cleanup transform
(`src/frontend/src/components/MarkdownRenderer.tsx`, lines 13-30)

Each `stripX`/`fixX` function below embeds one `.replace(...)` call, in the
order the source applies them. All the `$`-anchored regexes have no `m`
flag, so `$` is end-of-input and each can match at most once even with `g`. -/

/-- `.replace(/\n---+\s*$/g, '')`: drop a suffix of the form newline,
three-or-more hyphens, trailing whitespace (leftmost such suffix). -/
def stripNlHr : List Char → List Char
  | [] => []
  | c :: rest => if c = '\n' && isHrTail rest then [] else c :: stripNlHr rest

/-- The replace of regex `---+\s*$` by the empty string, used with flag
`g` on line 16 and once more, single-shot, on lines 24 and 30: drop a
suffix of three-or-more hyphens followed only by whitespace. -/
def stripHrEnd : List Char → List Char
  | [] => []
  | c :: rest => if isHrTail (c :: rest) then [] else c :: stripHrEnd rest

/-- `.replace(/\n---+\n/g, '\n\n')`: every non-overlapping occurrence of a
newline, three-or-more hyphens and a closing newline becomes `"\n\n"`;
scanning resumes after the consumed closing newline. -/
def fixHrNl : List Char → List Char
  | [] => []
  | c :: rest =>
    if c = '\n' && 3 ≤ hyCount rest && (rest.drop (hyCount rest)).head? = some '\n' then
      '\n' :: '\n' :: fixHrNl (rest.drop (hyCount rest + 1))
    else c :: fixHrNl rest
termination_by l => l.length
decreasing_by
  · simp [List.length_drop]; omega
  · simp

/-- `.replace(/\n---+\r\n/g, '\n\n')`. -/
def fixHrCrNl : List Char → List Char
  | [] => []
  | c :: rest =>
    if c = '\n' && 3 ≤ hyCount rest && (rest.drop (hyCount rest)).take 2 = ['\r', '\n'] then
      '\n' :: '\n' :: fixHrCrNl (rest.drop (hyCount rest + 2))
    else c :: fixHrCrNl rest
termination_by l => l.length
decreasing_by
  · simp [List.length_drop]; omega
  · simp

/-- `.replace(/\r\n---+\r\n/g, '\r\n\r\n')`. -/
def fixCrHr : List Char → List Char
  | [] => []
  | c :: rest =>
    if c = '\r' && rest.head? = some '\n' &&
       3 ≤ hyCount (rest.drop 1) &&
       ((rest.drop 1).drop (hyCount (rest.drop 1))).take 2 = ['\r', '\n'] then
      '\r' :: '\n' :: '\r' :: '\n' :: fixCrHr ((rest.drop 1).drop (hyCount (rest.drop 1) + 2))
    else c :: fixCrHr rest
termination_by l => l.length
decreasing_by
  · simp [List.length_drop]; omega
  · simp

/-- Does multiline `$` match before `l` (end of input or a line terminator)? -/
def termAt (l : List Char) : Bool :=
  match l.head? with
  | none => true
  | some c => isLineTerm c

/-- Backtracking search for the greedy `\s*$` in multiline mode: try the
longest whitespace prefix first, backing off until `$` can match. -/
def searchK : Nat → List Char → Option Nat
  | 0, l => if termAt l then some 0 else none
  | k + 1, l => if termAt (l.drop (k + 1)) then some (k + 1) else searchK k l

def bestWsK (l : List Char) : Option Nat := searchK (countLead isJsWS l) l

/-- `.replace(/^---+\s*$/gm, '')`: at every position preceded by a line
terminator (or at the start), a run of three-or-more hyphens followed by
the longest whitespace stretch after which `$` matches is deleted; scanning
resumes after the deleted text, in the original string. -/
def stripHrLines (atStart : Bool) : List Char → List Char
  | [] => []
  | c :: rest =>
    if atStart && 3 ≤ hyCount (c :: rest) then
      match bestWsK ((c :: rest).drop (hyCount (c :: rest))) with
      | some k =>
          stripHrLines
            (match ((c :: rest).take (hyCount (c :: rest) + k)).getLast? with
             | some d => isLineTerm d
             | none => false)
            ((c :: rest).drop (hyCount (c :: rest) + k))
      | none => c :: stripHrLines (isLineTerm c) rest
    else c :: stripHrLines (isLineTerm c) rest
termination_by l => l.length
decreasing_by
  all_goals simp_all [List.length_drop]
  all_goals omega

/-- `.replace(/\n{3,}/g, '\n\n')`: a maximal run of three or more newlines
becomes exactly two. -/
def collapseNl : List Char → List Char
  | [] => []
  | c :: rest =>
    if c = '\n' && 2 ≤ countLead (fun d => d = '\n') rest then
      '\n' :: '\n' :: collapseNl (rest.drop (countLead (fun d => d = '\n') rest))
    else c :: collapseNl rest
termination_by l => l.length
decreasing_by
  · simp [List.length_drop]
    rename_i h
    simp at h
    omega
  · simp

/-- Remove trailing `isJsWS` characters. -/
def trimEnd : List Char → List Char
  | [] => []
  | c :: rest =>
    if (trimEnd rest).isEmpty && isJsWS c then [] else c :: trimEnd rest

/-- `String.prototype.trim`. -/
def jsTrim (l : List Char) : List Char := trimEnd (l.dropWhile isJsWS)

/-- The full `cleanedContent` computation of `MarkdownRenderer`
(lines 13-30): the chained replaces, a trim, the final trailing-dash pass
and the final trim, in source order. -/
def cleanedContent (l : List Char) : List Char :=
  jsTrim (stripHrEnd (jsTrim (collapseNl (stripHrEnd (stripHrLines true
    (fixCrHr (fixHrCrNl (fixHrNl (stripHrEnd (stripNlHr l))))))))))

/-- Does `l` start with three consecutive copies of `c`? -/
def startsRun3 (c : Char) : List Char → Bool
  | a :: b :: d :: _ => a = c && b = c && d = c
  | _ => false

/-- Does `l` contain three consecutive copies of `c` anywhere? -/
def hasRun3 (c : Char) : List Char → Bool
  | [] => false
  | a :: rest => startsRun3 c (a :: rest) || hasRun3 c rest

/-! ## MarkdownRenderer language auto-detection
(`src/frontend/src/components/MarkdownRenderer.tsx`, lines 43-64) -/

/-- ASCII lowering; models `String.prototype.toLowerCase` on the ASCII
range, which is the only range the detector's search tokens live in. -/
def asciiLower (c : Char) : Char :=
  if 'A' ≤ c && c ≤ 'Z' then Char.ofNat (c.toNat + 32) else c

def lowerStr (l : List Char) : List Char := l.map asciiLower

def startsWithL : List Char → List Char → Bool
  | [], _ => true
  | _ :: _, [] => false
  | p :: ps, c :: cs => p = c && startsWithL ps cs

/-- `String.prototype.includes pat`: `pat` occurs as a contiguous substring. -/
def containsSub (pat : List Char) : List Char → Bool
  | [] => startsWithL pat []
  | c :: rest => startsWithL pat (c :: rest) || containsSub pat rest

/-- The left brace character, written by code point. -/
def lbrace : Char := Char.ofNat 123

/-- First branch of the detector: Python-flavoured tokens. -/
def hasPythonToken (content : List Char) : Bool :=
  containsSub ("def ".toList) content || containsSub ("class ".toList) content ||
  containsSub ("import ".toList) content || containsSub ("@dataclass".toList) content ||
  containsSub ("raise ".toList) content || containsSub ("-> none".toList) content ||
  containsSub ("// before:".toList) content || containsSub ("// after:".toList) content

/-- Second branch: JavaScript-flavoured tokens. -/
def hasJsToken (content : List Char) : Bool :=
  containsSub ("function ".toList) content || containsSub ("const ".toList) content ||
  containsSub ("let ".toList) content || containsSub ("export ".toList) content ||
  containsSub ("interface ".toList) content || containsSub ("type ".toList) content ||
  containsSub ("// before".toList) content || containsSub ("// after".toList) content

/-- Third branch: `'public ' || 'private ' || ('class ' && '{')` — note the
`&&` binds tighter than `||`, exactly as in the source. -/
def hasJavaToken (content : List Char) : Bool :=
  containsSub ("public ".toList) content || containsSub ("private ".toList) content ||
  (containsSub ("class ".toList) content && containsSub [lbrace] content)

/-- Language auto-detection for a fenced block with no declared tag:
the source lowercases the code string and tests the three token families
in order, defaulting to `"text"`. -/
def detectLanguage (codeString : List Char) : String :=
  if hasPythonToken (lowerStr codeString) then "python"
  else if hasJsToken (lowerStr codeString) then "javascript"
  else if hasJavaToken (lowerStr codeString) then "java"
  else "text"

/-! ## CodeAnalysis score colors
(`CodeAnalysis` component, `getComplexityColor` / `getQualityColor`) -/

/-- `getComplexityColor`: `<3` green, `<6` yellow, else red. Scores are JS
numbers; we model them as rationals. -/
def getComplexityColor (score : ℚ) : String :=
  if score < 3 then "text-green-600"
  else if score < 6 then "text-yellow-600"
  else "text-red-600"

/-- `getQualityColor`: the source guard is `if (!score)`, which is taken
when `score` is `null` and also when it is the (falsy) number `0`;
otherwise `>=8` green, `>=6` yellow, else red. -/
def getQualityColor (score : Option ℚ) : String :=
  match score with
  | none => "text-gray-600"
  | some s =>
    if s = 0 then "text-gray-600"
    else if 8 ≤ s then "text-green-600"
    else if 6 ≤ s then "text-yellow-600"
    else "text-red-600"

/-! ## Q&A panel (`CodeQuestion`, `src/unnamed/part_002`) -/

structure QuestionResponse where
  answer : List Char
  question : List Char
  language : List Char
deriving DecidableEq

structure QAState where
  question : List Char
  codeContent : List Char
  language : List Char
  answers : List QuestionResponse
deriving DecidableEq

/-- Result of the awaited `askQuestion` call inside `handleSubmit`:
either a response or a thrown error. -/
inductive AskOutcome where
  | ok (r : QuestionResponse)
  | err
deriving DecidableEq

/-- Modelled from the spec: the backend `/question` handler is not under
`src/` (only the client wrapper in `api.ts` is). Per the spec's data model
(`QuestionResponse: {answer, question, language}`) and its scenario ("a new
entry is appended to the conversation log with `question` equal to the
literal input string"), the response echoes the submitted question and
language; the answer text is an opaque function of the inputs. -/
def askQuestion (oracle : List Char → List Char → List Char → List Char)
    (question codeContent language : List Char) : QuestionResponse :=
  ⟨oracle question codeContent language, question, language⟩

/-- `handleSubmit` of `CodeQuestion`: guard
`if (!question.trim() || !codeContent.trim()) return` (empty string is
falsy), then on success append the response and clear the input, on error
leave everything as it was. The boolean records whether the `askQuestion`
request was issued. -/
def handleSubmit (st : QAState) (outcome : AskOutcome) : QAState × Bool :=
  if (jsTrim st.question).isEmpty || (jsTrim st.codeContent).isEmpty then (st, false)
  else
    match outcome with
    | .ok r => ({ st with answers := st.answers ++ [r], question := [] }, true)
    | .err => (st, true)

/-! ## Documentation panel (`DocumentationGenerator.tsx`) -/

structure AnalysisLite where
  filename : Option (List Char)
deriving DecidableEq

structure DocRequest where
  content : List Char
  filename : List Char
deriving DecidableEq

/-- JS `a || b` on a nullable string: the default is used when the string
is absent or empty (falsy). -/
def jsOrStr (o : Option (List Char)) (dflt : List Char) : List Char :=
  match o with
  | some s => if s = [] then dflt else s
  | none => dflt

/-- `generateFromAnalyzedCode` (lines 46-67): bail out unless both the code
content and an analysis result are present (and the content is truthy),
then synthesize a pseudo-file whose content is the analyzed text and whose
name is `analysisResult.filename || 'code.py'`, and issue the
documentation request for it. `none` means no request is issued. -/
def generateFromAnalyzedCode (codeContent : Option (List Char))
    (ar : Option AnalysisLite) : Option DocRequest :=
  match codeContent, ar with
  | some cc, some a =>
      if cc = [] then none
      else some ⟨cc, jsOrStr a.filename ("code.py".toList)⟩
  | _, _ => none

/-- Does `[^/.]+` followed by end-of-input hold from here, nonempty? -/
def extTail (rest : List Char) : Bool :=
  !rest.isEmpty && rest.all (fun d => !(d = '.') && !(d = '/'))

/-- `.replace(/\.[^/.]+$/, '')` (line 76): delete the leftmost suffix
consisting of a dot followed by one-or-more non-dot non-slash characters
reaching the end of the string. -/
def stripExtScan : List Char → List Char
  | [] => []
  | c :: rest => if c = '.' && extTail rest then [] else c :: stripExtScan rest

/-- Does the extension regex `/\.[^/.]+$/` match anywhere in `l`? -/
def hasExtension : List Char → Bool
  | [] => false
  | c :: rest => (c = '.' && extTail rest) || hasExtension rest

/-- `downloadDocumentation` (lines 69-81) computes the client-side download
name from the response's filename. -/
def downloadName (filename : List Char) : List Char :=
  stripExtScan filename ++ "_documentation.md".toList

/-! ## Claims about the score colors -/

/-- C1 counterexample: the claim says a complexity score of 6 yields the
yellow class; the code yields the red class at 6 (`<6` is strict). -/
theorem getComplexityColor_six_not_yellow :
    getComplexityColor 6 = "text-red-600" ∧
    getComplexityColor 6 ≠ "text-yellow-600" := by
  constructor
  · decide
  · decide

/-- C1 (amended): the complexity color matches the §4.2 thresholds with the
boundaries resolved as in the code: strictly below 3 green, from 3 up to
strictly below 6 yellow, from 6 upward red; in particular a score of 3 is
yellow and a score of 6 is red. -/
theorem getComplexityColor_thresholds (s : ℚ) :
    getComplexityColor 3 = "text-yellow-600" ∧
    getComplexityColor 6 = "text-red-600" ∧
    (s < 3 → getComplexityColor s = "text-green-600") ∧
    (3 ≤ s → s < 6 → getComplexityColor s = "text-yellow-600") ∧
    (6 ≤ s → getComplexityColor s = "text-red-600") := by
  refine ⟨by decide, by decide, ?_, ?_, ?_⟩
  · intro h
    simp [getComplexityColor, h]
  · intro h3 h6
    simp [getComplexityColor, not_lt.mpr h3, h6]
  · intro h6
    have h3 : ¬ s < 3 := not_lt.mpr (by linarith)
    simp [getComplexityColor, h3, not_lt.mpr h6]

/-- C1 witness: the amended theorem applied at the boundary score 3. -/
theorem getComplexityColor_thresholds_witness :
    getComplexityColor 3 = "text-yellow-600" :=
  (getComplexityColor_thresholds 3).2.2.2.1 (le_refl 3) (by decide)

/-- C2 counterexample: the claim says a quality score of 0 yields the red
class and that the gray class appears exactly when the score is null; the
code's `if (!score)` guard also fires on the falsy number 0, yielding gray. -/
theorem getQualityColor_zero_is_gray :
    getQualityColor (some 0) = "text-gray-600" ∧
    getQualityColor (some 0) ≠ "text-red-600" := by
  constructor
  · decide
  · decide

/-- C2 (amended): the quality color is green from 8 upward, yellow from 6
up to strictly below 8, red below 6 — except that a score of exactly 0 is
rendered with the neutral gray, which is also the color when no score is
present. -/
theorem getQualityColor_thresholds (s : ℚ) :
    getQualityColor none = "text-gray-600" ∧
    getQualityColor (some 0) = "text-gray-600" ∧
    (s ≠ 0 → 8 ≤ s → getQualityColor (some s) = "text-green-600") ∧
    (s ≠ 0 → 6 ≤ s → s < 8 → getQualityColor (some s) = "text-yellow-600") ∧
    (s ≠ 0 → s < 6 → getQualityColor (some s) = "text-red-600") := by
  refine ⟨by decide, by decide, ?_, ?_, ?_⟩
  · intro h0 h8
    simp [getQualityColor, h0, h8]
  · intro h0 h6 h8
    simp [getQualityColor, h0, not_le.mpr h8, h6]
  · intro h0 h6
    have h8 : ¬ (8:ℚ) ≤ s := not_le.mpr (by linarith)
    simp [getQualityColor, h0, h8, not_le.mpr h6]

/-- C2 witness: the amended theorem applied at score 7 (yellow band). -/
theorem getQualityColor_thresholds_witness :
    getQualityColor (some 7) = "text-yellow-600" :=
  (getQualityColor_thresholds 7).2.2.2.1 (by decide) (by decide) (by decide)

/-! ## Claims about the Q&A panel -/

/-- C4: submitting with an all-whitespace question or empty code content is
a no-op: the state (in particular the conversation log) is unchanged and no
request is issued, whatever the would-be outcome. -/
theorem handleSubmit_empty_noop (st : QAState) (o : AskOutcome)
    (h : (jsTrim st.question).isEmpty = true ∨ st.codeContent = []) :
    handleSubmit st o = (st, false) := by
  rcases h with h | h
  · simp [handleSubmit, h]
  · simp [handleSubmit, h, jsTrim, trimEnd]

/-- C4 witness: a state with a whitespace-only question is left untouched. -/
theorem handleSubmit_empty_noop_witness :
    handleSubmit ⟨"  ".toList, "code".toList, "Generic".toList, []⟩ AskOutcome.err
      = (⟨"  ".toList, "code".toList, "Generic".toList, []⟩, false) :=
  handleSubmit_empty_noop _ _ (Or.inl (by decide))

/-- C5: when the question request fails, the whole panel state — in
particular the conversation log and the input text — is exactly what it was
before the submission. -/
theorem handleSubmit_error_preserves_state (st : QAState) :
    (handleSubmit st AskOutcome.err).1 = st := by
  unfold handleSubmit
  split
  · rfl
  · rfl

/-- C6: a successful submission (with nonblank question and code) appends
exactly one entry at the end of the log, whose `question` field is the
literal submitted question; and every path of `handleSubmit` leaves the old
entries as a prefix, unchanged. Uses the spec-modelled backend echo. -/
theorem handleSubmit_success_appends
    (oracle : List Char → List Char → List Char → List Char) (st : QAState)
    (hq : (jsTrim st.question).isEmpty = false)
    (hc : (jsTrim st.codeContent).isEmpty = false) :
    (handleSubmit st
        (AskOutcome.ok (askQuestion oracle st.question st.codeContent st.language))).1.answers
      = st.answers ++ [askQuestion oracle st.question st.codeContent st.language] ∧
    (askQuestion oracle st.question st.codeContent st.language).question = st.question ∧
    (∀ o : AskOutcome, ∃ t, (handleSubmit st o).1.answers = st.answers ++ t) := by
  refine ⟨?_, rfl, ?_⟩
  · simp [handleSubmit, hq, hc]
  · intro o
    unfold handleSubmit
    split
    · exact ⟨[], by simp⟩
    · cases o with
      | ok r => exact ⟨[r], by simp⟩
      | err => exact ⟨[], by simp⟩

/-- C6 witness: a concrete successful submission appends the literal
question. -/
theorem handleSubmit_success_appends_witness :
    (handleSubmit ⟨"What does Calculator.add do?".toList, "code".toList,
        "Python".toList, []⟩
      (AskOutcome.ok (askQuestion (fun _ _ _ => "It adds.".toList)
        "What does Calculator.add do?".toList "code".toList "Python".toList))).1.answers
      = [askQuestion (fun _ _ _ => "It adds.".toList)
          "What does Calculator.add do?".toList "code".toList "Python".toList] :=
  (handleSubmit_success_appends (fun _ _ _ => "It adds.".toList)
    ⟨"What does Calculator.add do?".toList, "code".toList, "Python".toList, []⟩
    (by decide) (by decide)).1

/-! ## Claims about the documentation panel -/

/-- C7: for a filename of the form `base.ext` with a nonempty final
extension free of dots and slashes, the download name is `base` with
`_documentation.md` appended (the regex strips the final dot and
extension). -/
theorem downloadName_replaces_extension (base ext : List Char)
    (hne : ext ≠ []) (hext : ∀ d ∈ ext, d ≠ '.' ∧ d ≠ '/') :
    downloadName (base ++ '.' :: ext) = base ++ "_documentation.md".toList := by
  unfold downloadName
  have hscan : stripExtScan (base ++ '.' :: ext) = base := by
    induction base with
    | nil =>
      have hne' : ext.isEmpty = false := by
        cases ext with
        | nil => exact absurd rfl hne
        | cons a t => rfl
      have hall : ext.all (fun d => !(d = '.') && !(d = '/')) = true := by
        rw [List.all_eq_true]
        intro d hd
        have := hext d hd
        simp [this.1, this.2]
      simp [stripExtScan, extTail, hne', hall]
    | cons a base' ih =>
      have hfalse : extTail (base' ++ '.' :: ext) = false := by
        unfold extTail
        rw [List.all_append]
        simp
      simp [stripExtScan, hfalse, ih]
  rw [hscan]

/-- C7 witness: `foo.py` yields `foo_documentation.md`. -/
theorem downloadName_foo_py_witness :
    downloadName ("foo.py".toList) = "foo_documentation.md".toList := by
  have h := downloadName_replaces_extension ("foo".toList) ("py".toList)
    (by decide) (by decide)
  exact h

/-- C8: with code content and an analysis result present, the issued
documentation request carries exactly the stored analyzed text, and its
filename is the analysis result's filename when that is present and
nonempty, else `code.py`. -/
theorem generateFromAnalyzedCode_request (cc : List Char) (a : AnalysisLite)
    (hcc : cc ≠ []) :
    (a.filename = none →
      generateFromAnalyzedCode (some cc) (some a) = some ⟨cc, "code.py".toList⟩) ∧
    (∀ f, a.filename = some f → f ≠ [] →
      generateFromAnalyzedCode (some cc) (some a) = some ⟨cc, f⟩) := by
  constructor
  · intro hf
    simp [generateFromAnalyzedCode, hcc, jsOrStr, hf]
  · intro f hf hfne
    simp [generateFromAnalyzedCode, hcc, jsOrStr, hf, hfne]

/-- C8 witness: a concrete analyzed file produces the expected request. -/
theorem generateFromAnalyzedCode_request_witness :
    generateFromAnalyzedCode (some ("print(1)".toList))
        (some ⟨some ("ex.py".toList)⟩)
      = some ⟨"print(1)".toList, "ex.py".toList⟩ :=
  (generateFromAnalyzedCode_request ("print(1)".toList) ⟨some ("ex.py".toList)⟩
    (by decide)).2 ("ex.py".toList) rfl (by decide)

/-- C10: when the extension regex matches nowhere in the filename (for
example `Makefile`), the download name is the unmodified filename with
`_documentation.md` appended. -/
theorem downloadName_no_extension (l : List Char)
    (h : hasExtension l = false) :
    downloadName l = l ++ "_documentation.md".toList := by
  unfold downloadName
  have hscan : stripExtScan l = l := by
    induction l with
    | nil => rfl
    | cons c rest ih =>
      have h' : hasExtension (c :: rest) = false := h
      unfold hasExtension at h'
      simp only [Bool.or_eq_false_iff] at h'
      simp [stripExtScan, h'.1, ih h'.2]
  rw [hscan]

/-- C10 witness: `Makefile` yields `Makefile_documentation.md`. -/
theorem downloadName_makefile_witness :
    downloadName ("Makefile".toList) = "Makefile_documentation.md".toList :=
  downloadName_no_extension ("Makefile".toList) (by decide)

/-! ## Claims about language auto-detection -/

/-- C9 counterexample: a snippet containing `public `, `class ` and a brace
is classified as Python, not Java, because `class ` already triggers the
first (Python) branch. -/
theorem detectLanguage_public_class_is_python :
    detectLanguage ("public class A ".toList ++ [lbrace]) = "python" ∧
    detectLanguage ("public class A ".toList ++ [lbrace]) ≠ "java" := by
  constructor
  · decide
  · decide

/-- C9 (amended): the guess tests the token families in priority order on
the lowercased text — Python tokens first, then the JavaScript family only
when no Python token occurs, then Java only when neither earlier family
occurs, else plain text; in particular a snippet with `public `, `class `
and a brace is classified as Python, since `class ` is a Python token. -/
theorem detectLanguage_priority (code : List Char) :
    (hasPythonToken (lowerStr code) = true → detectLanguage code = "python") ∧
    (hasPythonToken (lowerStr code) = false → hasJsToken (lowerStr code) = true →
      detectLanguage code = "javascript") ∧
    (hasPythonToken (lowerStr code) = false → hasJsToken (lowerStr code) = false →
      hasJavaToken (lowerStr code) = true → detectLanguage code = "java") ∧
    (hasPythonToken (lowerStr code) = false → hasJsToken (lowerStr code) = false →
      hasJavaToken (lowerStr code) = false → detectLanguage code = "text") ∧
    detectLanguage ("public class A ".toList ++ [lbrace]) = "python" := by
  refine ⟨?_, ?_, ?_, ?_, by decide⟩
  · intro h
    simp [detectLanguage, h]
  · intro h1 h2
    simp [detectLanguage, h1, h2]
  · intro h1 h2 h3
    simp [detectLanguage, h1, h2, h3]
  · intro h1 h2 h3
    simp [detectLanguage, h1, h2, h3]

/-- C9 witness: a snippet with `public ` but no Python or JavaScript token
is classified as Java by the amended priority reading. -/
theorem detectLanguage_priority_witness :
    detectLanguage ("public int x;".toList) = "java" :=
  (detectLanguage_priority ("public int x;".toList)).2.2.1
    (by decide) (by decide) (by decide)

/-! ## Character-run lemmas for the cleanup transform -/

theorem startsRun3_nil (c : Char) : startsRun3 c [] = false := rfl

theorem startsRun3_one (c a : Char) : startsRun3 c [a] = false := rfl

theorem startsRun3_two (c a b : Char) : startsRun3 c [a, b] = false := rfl

theorem startsRun3_cons3 (c a b d : Char) (t : List Char) :
    startsRun3 c (a :: b :: d :: t)
      = (decide (a = c) && decide (b = c) && decide (d = c)) := rfl

theorem startsRun3_false_of_head (c : Char) (l : List Char)
    (h : l.head? ≠ some c) : startsRun3 c l = false := by
  match l with
  | [] => rfl
  | [a] => rfl
  | [a, b] => rfl
  | a :: b :: d :: t =>
    have ha : a ≠ c := by simpa using h
    rw [startsRun3_cons3]
    simp [ha]

theorem startsRun3_false_of_second (c : Char) (l : List Char)
    (h : l.tail.head? ≠ some c) : startsRun3 c l = false := by
  match l with
  | [] => rfl
  | [a] => rfl
  | [a, b] => rfl
  | a :: b :: d :: t =>
    have hb : b ≠ c := by simpa using h
    rw [startsRun3_cons3]
    simp [hb]

theorem startsRun3_false_of_third (c : Char) (l : List Char)
    (h : l.tail.tail.head? ≠ some c) : startsRun3 c l = false := by
  match l with
  | [] => rfl
  | [a] => rfl
  | [a, b] => rfl
  | a :: b :: d :: t =>
    have hd : d ≠ c := by simpa using h
    rw [startsRun3_cons3]
    simp [hd]

theorem hasRun3_cons (c a : Char) (rest : List Char) :
    hasRun3 c (a :: rest) = (startsRun3 c (a :: rest) || hasRun3 c rest) := rfl

theorem hasRun3_of_starts (c : Char) (l : List Char)
    (h : startsRun3 c l = true) : hasRun3 c l = true := by
  match l with
  | [] => rw [startsRun3_nil] at h; exact absurd h (by simp)
  | a :: rest => rw [hasRun3_cons, h]; rfl

theorem hasRun3_tail_false (c a : Char) (rest : List Char)
    (h : hasRun3 c (a :: rest) = false) : hasRun3 c rest = false := by
  rw [hasRun3_cons] at h
  exact (Bool.or_eq_false_iff.mp h).2

theorem hasRun3_starts_false (c a : Char) (rest : List Char)
    (h : hasRun3 c (a :: rest) = false) : startsRun3 c (a :: rest) = false := by
  rw [hasRun3_cons] at h
  exact (Bool.or_eq_false_iff.mp h).1

theorem hasRun3_drop_false (c : Char) (l : List Char) (n : Nat)
    (h : hasRun3 c l = false) : hasRun3 c (l.drop n) = false := by
  induction n generalizing l with
  | zero => simpa using h
  | succ n ih =>
    match l with
    | [] => simpa using h
    | a :: rest =>
      rw [List.drop_succ_cons]
      exact ih rest (hasRun3_tail_false c a rest h)

theorem startsRun3_append (c : Char) (l₁ l₂ : List Char)
    (h : startsRun3 c l₁ = true) : startsRun3 c (l₁ ++ l₂) = true := by
  match l₁ with
  | [] => rw [startsRun3_nil] at h; exact absurd h (by simp)
  | [a] => rw [startsRun3_one] at h; exact absurd h (by simp)
  | [a, b] => rw [startsRun3_two] at h; exact absurd h (by simp)
  | a :: b :: d :: t =>
    rw [startsRun3_cons3] at h
    simp only [List.cons_append]
    rw [startsRun3_cons3]
    exact h

theorem hasRun3_append_left (c : Char) (l₁ l₂ : List Char)
    (h : hasRun3 c l₁ = true) : hasRun3 c (l₁ ++ l₂) = true := by
  induction l₁ with
  | nil => simp [hasRun3] at h
  | cons a rest ih =>
    rw [hasRun3_cons] at h
    rw [List.cons_append, hasRun3_cons]
    rcases Bool.or_eq_true_iff.mp h with h1 | h2
    · have := startsRun3_append c (a :: rest) l₂ h1
      rw [List.cons_append] at this
      rw [this]
      rfl
    · rw [ih h2]
      simp

theorem hasRun3_append_right (c : Char) (l₁ l₂ : List Char)
    (h : hasRun3 c l₂ = true) : hasRun3 c (l₁ ++ l₂) = true := by
  induction l₁ with
  | nil => simpa using h
  | cons a rest ih =>
    rw [List.cons_append, hasRun3_cons, ih]
    simp

theorem startsRun3_of_hyCount (l : List Char) (h : 3 ≤ hyCount l) :
    startsRun3 '-' l = true := by
  match l with
  | [] => simp [hyCount, countLead] at h
  | [a] =>
    by_cases ha : a = '-' <;> simp [hyCount, countLead, ha] at h
  | [a, b] =>
    by_cases ha : a = '-' <;> by_cases hb : b = '-' <;>
      simp [hyCount, countLead, ha, hb] at h
  | a :: b :: d :: t =>
    by_cases ha : a = '-'
    · by_cases hb : b = '-'
      · by_cases hd : d = '-'
        · rw [startsRun3_cons3]
          simp [ha, hb, hd]
        · simp [hyCount, countLead, ha, hb, hd] at h
      · simp [hyCount, countLead, ha, hb] at h
    · simp [hyCount, countLead, ha] at h

theorem hyCount_lt_three (l : List Char) (h : hasRun3 '-' l = false) :
    hyCount l < 3 := by
  by_contra hc
  push_neg at hc
  have := hasRun3_of_starts '-' l (startsRun3_of_hyCount l hc)
  rw [this] at h
  exact absurd h (by simp)

theorem hasRun3_of_isHrTail (l : List Char) (h : isHrTail l = true) :
    hasRun3 '-' l = true := by
  have h3 : 3 ≤ hyCount l := by
    unfold isHrTail at h
    have := (Bool.and_eq_true_iff.mp h).1
    exact of_decide_eq_true this
  exact hasRun3_of_starts '-' l (startsRun3_of_hyCount l h3)

/-! ## The hyphen-dependent replaces are the identity on hyphen-run-free input -/

theorem stripNlHr_id (l : List Char) :
    hasRun3 '-' l = false → stripNlHr l = l := by
  induction l with
  | nil => intro _; rfl
  | cons c rest ih =>
    intro h
    have hrest := hasRun3_tail_false '-' c rest h
    have hguard : (c = '\n' && isHrTail rest) = false := by
      rcases Bool.eq_false_or_eq_true (isHrTail rest) with ht | hf
      · have := hasRun3_of_isHrTail rest ht
        rw [this] at hrest
        exact absurd hrest (by simp)
      · simp [hf]
    simp [stripNlHr, hguard, ih hrest]

theorem stripHrEnd_id (l : List Char) :
    hasRun3 '-' l = false → stripHrEnd l = l := by
  induction l with
  | nil => intro _; rfl
  | cons c rest ih =>
    intro h
    have hguard : isHrTail (c :: rest) = false := by
      rcases Bool.eq_false_or_eq_true (isHrTail (c :: rest)) with ht | hf
      · have := hasRun3_of_isHrTail _ ht
        rw [this] at h
        exact absurd h (by simp)
      · exact hf
    simp [stripHrEnd, hguard, ih (hasRun3_tail_false '-' c rest h)]

theorem fixHrNl_id (l : List Char) :
    hasRun3 '-' l = false → fixHrNl l = l := by
  induction l using fixHrNl.induct with
  | case1 => intro _; rw [fixHrNl]
  | case2 c rest hg ih =>
    intro h
    exfalso
    simp only [Bool.and_eq_true, decide_eq_true_eq] at hg
    have := hyCount_lt_three rest (hasRun3_tail_false '-' c rest h)
    omega
  | case3 c rest hg ih =>
    intro h
    rw [fixHrNl, if_neg hg, ih (hasRun3_tail_false '-' c rest h)]

theorem fixHrCrNl_id (l : List Char) :
    hasRun3 '-' l = false → fixHrCrNl l = l := by
  induction l using fixHrCrNl.induct with
  | case1 => intro _; rw [fixHrCrNl]
  | case2 c rest hg ih =>
    intro h
    exfalso
    simp only [Bool.and_eq_true, decide_eq_true_eq] at hg
    have := hyCount_lt_three rest (hasRun3_tail_false '-' c rest h)
    omega
  | case3 c rest hg ih =>
    intro h
    rw [fixHrCrNl, if_neg hg, ih (hasRun3_tail_false '-' c rest h)]

theorem fixCrHr_id (l : List Char) :
    hasRun3 '-' l = false → fixCrHr l = l := by
  induction l using fixCrHr.induct with
  | case1 => intro _; rw [fixCrHr]
  | case2 c rest hg ih =>
    intro h
    exfalso
    simp only [Bool.and_eq_true, decide_eq_true_eq] at hg
    have hd : hasRun3 '-' (rest.drop 1) = false :=
      hasRun3_drop_false '-' rest 1 (hasRun3_tail_false '-' c rest h)
    have := hyCount_lt_three (rest.drop 1) hd
    omega
  | case3 c rest hg ih =>
    intro h
    rw [fixCrHr, if_neg hg, ih (hasRun3_tail_false '-' c rest h)]

theorem stripHrLines_id (b : Bool) (l : List Char) :
    hasRun3 '-' l = false → stripHrLines b l = l := by
  induction b, l using stripHrLines.induct with
  | case1 atStart => intro _; rw [stripHrLines]
  | case2 atStart c rest hg k hk ih =>
    intro h
    exfalso
    simp only [Bool.and_eq_true, decide_eq_true_eq] at hg
    have := hyCount_lt_three (c :: rest) h
    omega
  | case3 atStart c rest hg hk ih =>
    intro h
    exfalso
    simp only [Bool.and_eq_true, decide_eq_true_eq] at hg
    have := hyCount_lt_three (c :: rest) h
    omega
  | case4 atStart c rest hg ih =>
    intro h
    rw [stripHrLines, if_neg hg, ih (hasRun3_tail_false '-' c rest h)]

/-! ## Newline-collapse lemmas -/

theorem collapseNl_nil : collapseNl [] = [] := by rw [collapseNl]

theorem collapseNl_headq (l : List Char) : (collapseNl l).head? = l.head? := by
  induction l using collapseNl.induct with
  | case1 => rw [collapseNl_nil]
  | case2 c rest hg ih =>
    simp only [Bool.and_eq_true, decide_eq_true_eq] at hg
    obtain ⟨hc, hk⟩ := hg
    subst hc
    have he : collapseNl ('\n' :: rest)
        = '\n' :: '\n' :: collapseNl (rest.drop (countLead (fun d => d = '\n') rest)) := by
      rw [collapseNl, if_pos (by simp [hk])]
    rw [he]
    rfl
  | case3 c rest hg ih =>
    rw [collapseNl, if_neg hg]
    rfl

theorem countLead_drop_head (p : Char → Bool) (l : List Char) (c : Char)
    (h : (l.drop (countLead p l)).head? = some c) : p c = false := by
  induction l with
  | nil => simp at h
  | cons a rest ih =>
    rcases Bool.eq_false_or_eq_true (p a) with ha | ha
    · have hc1 : countLead p (a :: rest) = countLead p rest + 1 := by
        simp [countLead, ha]
      rw [hc1, List.drop_succ_cons] at h
      exact ih h
    · have hc0 : countLead p (a :: rest) = 0 := by
        simp [countLead, ha]
      rw [hc0, List.drop_zero] at h
      simp only [List.head?_cons, Option.some.injEq] at h
      rw [← h]
      exact ha

theorem countLead_zero_head (p : Char → Bool) (l : List Char) (c : Char)
    (h0 : countLead p l = 0) (h : l.head? = some c) : p c = false := by
  cases l with
  | nil => simp at h
  | cons a rest =>
    simp only [List.head?_cons, Option.some.injEq] at h
    subst h
    rcases Bool.eq_false_or_eq_true (p a) with ha | ha
    · simp [countLead, ha] at h0
    · exact ha

theorem startsRun3_of_nlCount (rest : List Char)
    (h : 2 ≤ countLead (fun d => d = '\n') rest) :
    startsRun3 '\n' ('\n' :: rest) = true := by
  match rest with
  | [] => simp [countLead] at h
  | [b] =>
    by_cases hb : b = '\n' <;> simp [countLead, hb] at h
  | b :: d :: l3 =>
    by_cases hb : b = '\n'
    · by_cases hd : d = '\n'
      · subst hb; subst hd
        rw [startsRun3_cons3]
        simp
      · simp [countLead, hb, hd] at h
    · simp [countLead, hb] at h

theorem collapseNl_no_nl3 (l : List Char) :
    hasRun3 '\n' (collapseNl l) = false := by
  induction l using collapseNl.induct with
  | case1 => rw [collapseNl_nil]; rfl
  | case2 c rest hg ih =>
    simp only [Bool.and_eq_true, decide_eq_true_eq] at hg
    obtain ⟨hc, hk⟩ := hg
    subst hc
    have he : collapseNl ('\n' :: rest)
        = '\n' :: '\n' :: collapseNl (rest.drop (countLead (fun d => d = '\n') rest)) := by
      rw [collapseNl, if_pos (by simp [hk])]
    rw [he]
    have hhead : (collapseNl (rest.drop (countLead (fun d => d = '\n') rest))).head? ≠ some '\n' := by
      rw [collapseNl_headq]
      intro hcon
      have := countLead_drop_head (fun d => d = '\n') rest '\n' hcon
      simp at this
    rw [hasRun3_cons, hasRun3_cons]
    have h1 : startsRun3 '\n'
        ('\n' :: '\n' :: collapseNl (rest.drop (countLead (fun d => d = '\n') rest))) = false :=
      startsRun3_false_of_third '\n' _ (by simpa using hhead)
    have h2 : startsRun3 '\n'
        ('\n' :: collapseNl (rest.drop (countLead (fun d => d = '\n') rest))) = false :=
      startsRun3_false_of_second '\n' _ (by simpa using hhead)
    rw [h1, h2, ih]
    rfl
  | case3 c rest hg ih =>
    rw [collapseNl, if_neg hg, hasRun3_cons]
    suffices hs : startsRun3 '\n' (c :: collapseNl rest) = false by
      rw [hs, ih]
      rfl
    by_cases hc : c = '\n'
    · subst hc
      have hk1 : countLead (fun d => d = '\n') rest ≤ 1 := by
        rcases Nat.lt_or_ge (countLead (fun d => d = '\n') rest) 2 with hlt | hge
        · omega
        · exfalso
          apply hg
          simp [hge]
      rcases rest with _ | ⟨r0, rest2⟩
      · rw [collapseNl_nil]
        exact startsRun3_one '\n' '\n'
      · by_cases hr0 : r0 = '\n'
        · subst hr0
          have hz : countLead (fun d => d = '\n') rest2 = 0 := by
            have : countLead (fun d => d = '\n') ('\n' :: rest2)
                = countLead (fun d => d = '\n') rest2 + 1 := by
              simp [countLead]
            omega
          have he2 : collapseNl ('\n' :: rest2) = '\n' :: collapseNl rest2 := by
            rw [collapseNl, if_neg (by simp [hz])]
          rw [he2]
          refine startsRun3_false_of_third '\n' _ ?_
          simp only [List.tail_cons]
          rw [collapseNl_headq]
          intro hcon
          have := countLead_zero_head (fun d => d = '\n') rest2 '\n' hz hcon
          simp at this
        · refine startsRun3_false_of_second '\n' _ ?_
          simp only [List.tail_cons]
          rw [collapseNl_headq]
          simp [hr0]
    · exact startsRun3_false_of_head '\n' _ (by simp [hc])

theorem collapseNl_id (l : List Char) :
    hasRun3 '\n' l = false → collapseNl l = l := by
  induction l using collapseNl.induct with
  | case1 => intro _; rw [collapseNl_nil]
  | case2 c rest hg ih =>
    intro h
    exfalso
    simp only [Bool.and_eq_true, decide_eq_true_eq] at hg
    obtain ⟨hc, hk⟩ := hg
    subst hc
    have := hasRun3_of_starts '\n' ('\n' :: rest) (startsRun3_of_nlCount rest hk)
    rw [this] at h
    exact absurd h (by simp)
  | case3 c rest hg ih =>
    intro h
    rw [collapseNl, if_neg hg, ih (hasRun3_tail_false '\n' c rest h)]

theorem collapseNl_no_hy (l : List Char) :
    hasRun3 '-' l = false → hasRun3 '-' (collapseNl l) = false := by
  induction l using collapseNl.induct with
  | case1 => intro h; rw [collapseNl_nil]; exact h
  | case2 c rest hg ih =>
    intro h
    simp only [Bool.and_eq_true, decide_eq_true_eq] at hg
    obtain ⟨hc, hk⟩ := hg
    subst hc
    have he : collapseNl ('\n' :: rest)
        = '\n' :: '\n' :: collapseNl (rest.drop (countLead (fun d => d = '\n') rest)) := by
      rw [collapseNl, if_pos (by simp [hk])]
    rw [he, hasRun3_cons, hasRun3_cons]
    have h1 : startsRun3 '-'
        ('\n' :: '\n' :: collapseNl (rest.drop (countLead (fun d => d = '\n') rest))) = false :=
      startsRun3_false_of_head '-' _ (by simp)
    have h2 : startsRun3 '-'
        ('\n' :: collapseNl (rest.drop (countLead (fun d => d = '\n') rest))) = false :=
      startsRun3_false_of_head '-' _ (by simp)
    have h3 := ih (hasRun3_drop_false '-' rest _ (hasRun3_tail_false '-' '\n' rest h))
    rw [h1, h2, h3]
    rfl
  | case3 c rest hg ih =>
    intro h
    have hT := ih (hasRun3_tail_false '-' c rest h)
    rw [collapseNl, if_neg hg, hasRun3_cons]
    suffices hs : startsRun3 '-' (c :: collapseNl rest) = false by
      rw [hs, hT]
      rfl
    by_cases hc : c = '-'
    · subst hc
      rcases rest with _ | ⟨r0, rest2⟩
      · rw [collapseNl_nil]
        exact startsRun3_one '-' '-'
      · by_cases hr0 : r0 = '-'
        · subst hr0
          have hr2 : rest2.head? ≠ some '-' := by
            intro hcon
            rcases rest2 with _ | ⟨d, rest3⟩
            · simp at hcon
            · simp only [List.head?_cons, Option.some.injEq] at hcon
              subst hcon
              have := hasRun3_starts_false '-' '-' ('-' :: '-' :: rest3) h
              rw [startsRun3_cons3] at this
              simp at this
          have he2 : collapseNl ('-' :: rest2) = '-' :: collapseNl rest2 := by
            rw [collapseNl, if_neg (by simp)]
          rw [he2]
          refine startsRun3_false_of_third '-' _ ?_
          simp only [List.tail_cons]
          rw [collapseNl_headq]
          exact hr2
        · refine startsRun3_false_of_second '-' _ ?_
          simp only [List.tail_cons]
          rw [collapseNl_headq]
          simp [hr0]
    · exact startsRun3_false_of_head '-' _ (by simp [hc])

/-! ## Trim lemmas -/

theorem trimEnd_prefix (l : List Char) : ∃ t, l = trimEnd l ++ t := by
  induction l with
  | nil => exact ⟨[], rfl⟩
  | cons c rest ih =>
    obtain ⟨t, ht⟩ := ih
    by_cases hg : ((trimEnd rest).isEmpty && isJsWS c) = true
    · refine ⟨c :: rest, ?_⟩
      have he : trimEnd (c :: rest) = [] := by
        rw [trimEnd, if_pos hg]
      rw [he]
      rfl
    · refine ⟨t, ?_⟩
      have he : trimEnd (c :: rest) = c :: trimEnd rest := by
        rw [trimEnd, if_neg hg]
      rw [he, List.cons_append, ← ht]

theorem trimEnd_idem (l : List Char) : trimEnd (trimEnd l) = trimEnd l := by
  induction l with
  | nil => rfl
  | cons c rest ih =>
    by_cases hg : ((trimEnd rest).isEmpty && isJsWS c) = true
    · have he : trimEnd (c :: rest) = [] := by
        rw [trimEnd, if_pos hg]
      rw [he]
      rfl
    · have he : trimEnd (c :: rest) = c :: trimEnd rest := by
        rw [trimEnd, if_neg hg]
      rw [he]
      have hg2 : ¬ ((trimEnd (trimEnd rest)).isEmpty && isJsWS c) = true := by
        rw [ih]
        exact hg
      rw [trimEnd, if_neg hg2, ih]

theorem head_dropWhile (p : Char → Bool) (l : List Char) (c : Char)
    (h : (l.dropWhile p).head? = some c) : p c = false := by
  induction l with
  | nil => simp at h
  | cons a rest ih =>
    rcases Bool.eq_false_or_eq_true (p a) with ha | ha
    · rw [List.dropWhile_cons] at h
      rw [ha] at h
      simp only [if_true] at h
      exact ih h
    · rw [List.dropWhile_cons] at h
      rw [ha] at h
      simp only [if_false, Bool.false_eq_true] at h
      simp only [List.head?_cons, Option.some.injEq] at h
      rw [← h]
      exact ha

theorem hasRun3_jsTrim (c : Char) (l : List Char)
    (h : hasRun3 c l = false) : hasRun3 c (jsTrim l) = false := by
  have hul : hasRun3 c (l.dropWhile isJsWS) = false := by
    rcases Bool.eq_false_or_eq_true (hasRun3 c (l.dropWhile isJsWS)) with hc1 | hc2
    · have := hasRun3_append_right c (l.takeWhile isJsWS) (l.dropWhile isJsWS) hc1
      rw [List.takeWhile_append_dropWhile] at this
      rw [this] at h
      exact absurd h (by simp)
    · exact hc2
  unfold jsTrim
  rcases Bool.eq_false_or_eq_true (hasRun3 c (trimEnd (l.dropWhile isJsWS))) with hc1 | hc2
  · obtain ⟨t, ht⟩ := trimEnd_prefix (l.dropWhile isJsWS)
    have := hasRun3_append_left c (trimEnd (l.dropWhile isJsWS)) t hc1
    rw [← ht] at this
    rw [this] at hul
    exact absurd hul (by simp)
  · exact hc2

theorem dropWhile_trimEnd_eq (u : List Char)
    (hh : ∀ c, u.head? = some c → isJsWS c = false) :
    (trimEnd u).dropWhile isJsWS = trimEnd u := by
  cases u with
  | nil => rfl
  | cons c u2 =>
    have hcws : isJsWS c = false := hh c rfl
    by_cases hg : ((trimEnd u2).isEmpty && isJsWS c) = true
    · exfalso
      rw [hcws] at hg
      simp at hg
    · have he : trimEnd (c :: u2) = c :: trimEnd u2 := by
        rw [trimEnd, if_neg hg]
      rw [he, List.dropWhile_cons, hcws]
      simp

theorem jsTrim_idem (l : List Char) : jsTrim (jsTrim l) = jsTrim l := by
  have hh : ∀ c, (l.dropWhile isJsWS).head? = some c → isJsWS c = false :=
    fun c hc => head_dropWhile isJsWS l c hc
  unfold jsTrim
  rw [dropWhile_trimEnd_eq (l.dropWhile isJsWS) hh, trimEnd_idem]

/-! ## Assembly: the cleanup transform on hyphen-run-free input -/

theorem cleanedContent_eq (l : List Char) (h : hasRun3 '-' l = false) :
    cleanedContent l = jsTrim (collapseNl l) := by
  unfold cleanedContent
  rw [stripNlHr_id l h, stripHrEnd_id l h, fixHrNl_id l h, fixHrCrNl_id l h]
  rw [fixCrHr_id l h, stripHrLines_id true l h, stripHrEnd_id l h]
  rw [stripHrEnd_id _ (hasRun3_jsTrim '-' _ (collapseNl_no_hy l h)), jsTrim_idem]

theorem cleanedContent_no_hy (l : List Char) (h : hasRun3 '-' l = false) :
    hasRun3 '-' (cleanedContent l) = false := by
  rw [cleanedContent_eq l h]
  exact hasRun3_jsTrim '-' _ (collapseNl_no_hy l h)

/-! ## Claims about the cleanup transform -/

/-- C3 counterexample: the cleanup transform is not idempotent. One pass
over `"a--- --- --- ---"` leaves `"a---"` (each pass can only strip a
bounded number of trailing hyphen groups), and a second pass strips the
surviving trailing `---`. -/
theorem cleanedContent_not_idempotent :
    cleanedContent (cleanedContent
        ['a', '-', '-', '-', ' ', '-', '-', '-', ' ', '-', '-', '-', ' ', '-', '-', '-'])
      ≠ cleanedContent
        ['a', '-', '-', '-', ' ', '-', '-', '-', ' ', '-', '-', '-', ' ', '-', '-', '-'] := by
  have h1 : cleanedContent
      ['a', '-', '-', '-', ' ', '-', '-', '-', ' ', '-', '-', '-', ' ', '-', '-', '-']
      = ['a', '-', '-', '-'] := by
    simp [cleanedContent, stripNlHr, stripHrEnd, fixHrNl, fixHrCrNl, fixCrHr,
          stripHrLines, collapseNl, jsTrim, trimEnd, isHrTail, hyCount, countLead,
          bestWsK, searchK, termAt, isLineTerm, isJsWS, List.dropWhile]
  have h2 : cleanedContent ['a', '-', '-', '-'] = ['a'] := by
    simp [cleanedContent, stripNlHr, stripHrEnd, fixHrNl, fixHrCrNl, fixCrHr,
          stripHrLines, collapseNl, jsTrim, trimEnd, isHrTail, hyCount, countLead,
          bestWsK, searchK, termAt, isLineTerm, isJsWS, List.dropWhile]
  rw [h1, h2]
  decide

/-- C3 (amended): the cleanup transform is idempotent on every input that
contains no occurrence of three consecutive hyphens. On such input all the
horizontal-rule replaces are the identity, and the remaining
newline-collapse plus trim composition is idempotent. -/
theorem cleanedContent_idempotent_of_no_triple_hyphen (l : List Char)
    (h : hasRun3 '-' l = false) :
    cleanedContent (cleanedContent l) = cleanedContent l := by
  have h1 := cleanedContent_no_hy l h
  rw [cleanedContent_eq _ h1, cleanedContent_eq l h]
  have h2 : hasRun3 '\n' (jsTrim (collapseNl l)) = false :=
    hasRun3_jsTrim '\n' _ (collapseNl_no_nl3 l)
  rw [collapseNl_id _ h2, jsTrim_idem]

/-- C3 witness: idempotence on a concrete hyphen-run-free input. -/
theorem cleanedContent_idempotent_witness :
    cleanedContent (cleanedContent ("x\n\n\n\ny --".toList))
      = cleanedContent ("x\n\n\n\ny --".toList) :=
  cleanedContent_idempotent_of_no_triple_hyphen ("x\n\n\n\ny --".toList) (by decide)
